import Mathlib

/-!
Shallow embedding of the OpenBao PKI fetch paths
(`builtin/logical/pki/path_fetch.go`): the read/retrieval handlers for CA
certificates, CA chains, CRLs, delta CRLs and certificates by serial number,
plus the paginated certificate listing.  Go strings and byte slices are
modelled as lists; the storage backend and the external collaborators
(issuer lookup, revocation decoding, X.509 parsing) are modelled as an
environment record of pure functions.  The `goto reply` control flow of
`pathFetchRead` is split into a resolution step producing a state record and
a reply step assembling the final response, mirroring the source exactly.
-/

namespace PkiFetch

/-- Go strings (and the character content of byte slices) as lists of chars. -/
abbrev Str := List Char

/-- Go byte slices as lists of byte values. -/
abbrev Bytes := List Nat

/-- Errors returned by collaborators: `errutil.UserError` versus any other
(internal / storage) error, mirroring the `switch err.(type)` dispatch. -/
inductive GoErr where
  | user (msg : Str)
  | internal (msg : Str)
deriving DecidableEq

/-- `logical.StorageEntry`: the stored value bytes. -/
structure StorageEntry where
  value : Bytes
deriving DecidableEq

/-- Decoded `revocationInfo` JSON: epoch revocation time, the UTC timestamp
(`none` models a zero `time.Time`; `some s` carries the RFC3339Nano rendering
produced by `Format`), and the issuer identifier string. -/
structure RevocationInfo where
  revocationTime : Int
  revocationTimeUTC : Option Str
  certificateIssuer : Str
deriving DecidableEq

/-- Public key variants distinguished by the detailed-listing `switch`. -/
inductive PubKey where
  | rsa (byteSize : Nat)
  | ec (bitSize : Nat)
  | ed25519
  | unknown
deriving DecidableEq

/-- The fields of a parsed X.509 certificate used by the detailed listing. -/
structure CertData where
  subjectCommonName : Str
  issuerString : Str
  publicKey : PubKey
  notAfter : Int
  notBefore : Int
  dnsNames : List Str
deriving DecidableEq

/-- Per-serial metadata map entry built by the detailed listing. -/
structure CertInfo where
  commonName : Str
  issuer : Str
  keyType : Str
  keyBits : Nat
  notAfter : Int
  notBefore : Int
  dnsNames : List Str
deriving DecidableEq

/-- Values stored in a `logical.Response` data map. -/
inductive GoValue where
  | vStr (s : Str)
  | vInt (n : Int)
  | vBytes (b : Bytes)
  | vStrList (l : List Str)
  | vInfo (m : List (Str × CertInfo))
deriving DecidableEq

/-- A `logical.Response`: its `Data` map, as an insertion-ordered
association list with overwrite-on-assign semantics. -/
structure LResponse where
  data : List (Str × GoValue)
deriving DecidableEq

/-- Map assignment `d[k] = v`: overwrite an existing key, else append. -/
def dataInsert (d : List (Str × GoValue)) (k : Str) (v : GoValue) :
    List (Str × GoValue) :=
  match d with
  | [] => [(k, v)]
  | (k', v') :: rest =>
    if k' = k then (k, v) :: rest else (k', v') :: dataInsert rest k v

/-- Map lookup `d[k]`. -/
def dataGet (d : List (Str × GoValue)) (k : Str) : Option GoValue :=
  match d with
  | [] => none
  | (k', v') :: rest => if k' = k then some v' else dataGet rest k

def keyError : Str := "error".toList
def keyHTTPContentType : Str := "http_content_type".toList
def keyHTTPRawBody : Str := "http_raw_body".toList
def keyHTTPStatusCode : Str := "http_status_code".toList
def keyCertificate : Str := "certificate".toList
def keyRevocationTime : Str := "revocation_time".toList
def keyRevocationTimeRfc3339 : Str := "revocation_time_rfc3339".toList
def keyIssuerId : Str := "issuer_id".toList
def keyCAChain : Str := "ca_chain".toList
def keyKeys : Str := "keys".toList
def keyKeyInfo : Str := "key_info".toList

/-- Modelled from the spec: `logical.ErrorResponse` wraps a message as a
structured error envelope under the `"error"` key. -/
def errorResponse (msg : Str) : LResponse := ⟨[(keyError, GoValue.vStr msg)]⟩

/-- Modelled from the spec: `logical.Response.IsError` recognises an error
envelope by the presence of the `"error"` data key. -/
def LResponse.isError (r : LResponse) : Bool := (dataGet r.data keyError).isSome

/-- Structural test: does `s` start with `t`? -/
def startsWithL : Str → Str → Bool
  | _, [] => true
  | [], _ :: _ => false
  | a :: as, b :: bs => a == b && startsWithL as bs

/-- `strings.HasSuffix`. -/
def goHasSuffix (s t : Str) : Bool := startsWithL s.reverse t.reverse

/-- `strings.Contains`, by scanning every tail of `s`. -/
def goContains (s t : Str) : Bool :=
  match s with
  | [] => startsWithL [] t
  | _ :: rest => startsWithL s t || goContains rest t

/-- The characters trimmed by Go's `strings.TrimSpace` (`unicode.IsSpace`
restricted to the code points PEM text can contain, plus the two Latin-1
space characters). -/
def isGoSpace (c : Char) : Bool :=
  c == ' ' || c == '\t' || c == '\n' || c == '\x0b' || c == '\x0c' ||
    c == '\r' || c == '\x85' || c == '\xa0'

/-- Left half of `strings.TrimSpace`. -/
def trimLeftSpace (s : Str) : Str := s.dropWhile isGoSpace

/-- Right half of `strings.TrimSpace`. -/
def trimRightSpace (s : Str) : Str := (s.reverse.dropWhile isGoSpace).reverse

/-- Go's `strings.TrimSpace`. -/
def trimSpace (s : Str) : Str := trimRightSpace (trimLeftSpace s)

/-- The standard base64 alphabet used by `encoding/pem`. -/
def base64Alphabet : Str :=
  "ABCDEFGHIJKLMNOPQRSTUVWXYZabcdefghijklmnopqrstuvwxyz0123456789+/".toList

/-- The base64 digit for a 6-bit index. -/
def b64Char (n : Nat) : Char := base64Alphabet.getD n 'A'

/-- RFC 4648 base64 encoding of a byte sequence, with `=` padding, as
performed by `encoding/pem` on the block bytes. -/
def b64encode : Bytes → Str
  | [] => []
  | a :: [] =>
    [b64Char (a % 256 / 4), b64Char (a % 4 * 16), '=', '=']
  | a :: b :: [] =>
    [b64Char (a % 256 / 4), b64Char (a % 4 * 16 + b % 256 / 16),
     b64Char (b % 16 * 4), '=']
  | a :: b :: c :: rest =>
    b64Char (a % 256 / 4) :: b64Char (a % 4 * 16 + b % 256 / 16) ::
      b64Char (b % 16 * 4 + c % 256 / 64) :: b64Char (c % 64) :: b64encode rest

/-- Split a base64 text into lines of at most 64 characters, the wrapping
`encoding/pem` applies; fuelled to keep the recursion structural (the fuel
is always at least the length of the remaining text, so the fallback arm is
never reached). -/
def chunks64Aux : Nat → Str → List Str
  | _, [] => []
  | 0, s => [s]
  | Nat.succ fuel, s => s.take 64 :: chunks64Aux fuel (s.drop 64)

/-- The base64 lines of a PEM body. -/
def chunks64 (s : Str) : List Str := chunks64Aux s.length s

def pemHeader (t : Str) : Str := "-----BEGIN ".toList ++ t ++ "-----".toList

def pemFooter (t : Str) : Str := "-----END ".toList ++ t ++ "-----".toList

/-- The lines of a PEM block of type `t` over bytes `b`. -/
def pemLines (t : Str) (b : Bytes) : List Str :=
  pemHeader t :: (chunks64 (b64encode b) ++ [pemFooter t])

/-- Emit every line followed by a newline, as `pem.Encode` writes them. -/
def joinLinesNL : List Str → Str
  | [] => []
  | l :: rest => l ++ '\n' :: joinLinesNL rest

/-- Go's `pem.EncodeToMemory` for a block with no headers: header line,
wrapped base64 lines, footer line, each terminated by a newline. -/
def pemEncodeToMemory (t : Str) (b : Bytes) : Str := joinLinesNL (pemLines t b)

/-- Join lines with single newline separators (no trailing newline). -/
def joinNL : List Str → Str
  | [] => []
  | [l] => l
  | l :: l' :: rest => l ++ '\n' :: joinNL (l' :: rest)

def certTypeStr : Str := "CERTIFICATE".toList

def crlTypeStr : Str := "X509 CRL".toList

/-- The `ca_chain` assembly loop of `pathFetchRead` (lines 510-521): for each
chain element, PEM-encode it with type `CERTIFICATE`, trim it, and join onto
the accumulator with `strings.Join([]string{chainStr, ...}, "\n")`; finally
`strings.TrimSpace` the result. -/
def buildChainStr (rawChain : List Bytes) : Str :=
  trimSpace (rawChain.foldl
    (fun chainStr ca =>
      chainStr ++ '\n' :: trimSpace (pemEncodeToMemory certTypeStr ca)) [])

/-- Go `[]byte(s)` conversion. -/
def strToBytes (s : Str) : Bytes := s.map Char.toNat

/-- Go `string(b)` conversion. -/
def bytesToStr (b : Bytes) : Str := b.map Char.ofNat

/-- Scans a text for two consecutive newline characters (a blank line). -/
def hasConsecNL : Str → Bool
  | [] => false
  | [_] => false
  | a :: b :: rest => (a == '\n' && b == '\n') || hasConsecNL (b :: rest)

/-- Text with no leading newline, no trailing newline, and no blank line. -/
def GoodStr (t : Str) : Prop :=
  t ≠ [] ∧ hasConsecNL t = false ∧ t.head? ≠ some '\n' ∧
    t.getLast? ≠ some '\n'

/-- Each element preceded by a newline, concatenated: the raw shape the
chain-building fold produces before the final trim. -/
def prependNL : List Str → Str
  | [] => []
  | t :: rest => '\n' :: (t ++ prependNL rest)

/-- Modelled from the spec: the CA certificate (`caInfo.Certificate.Raw`)
and the rest of the trust chain, as returned by `fetchCAInfo`. -/
structure CAInfo where
  certificateRaw : Bytes
  chain : List Bytes
deriving DecidableEq

/-- Modelled from the spec: `GetFullChain` yields the chain certificates
leaf-to-root, the leaf (the CA certificate itself) included. -/
def CAInfo.getFullChain (c : CAInfo) : List Bytes := c.certificateRaw :: c.chain

/-- Modelled from the spec: storage path of the full CRL. -/
def legacyCRLPath : Str := "crl".toList

/-- Modelled from the spec: storage path of the delta CRL. -/
def deltaCRLPath : Str := "delta-crl".toList

/-- The external collaborators of the fetch handlers, as pure functions:
the per-class conditional markers (`Except.error` models a failed storage
read of the marker), the configured CA bundle, certificate and revocation
reads keyed by canonical serial, JSON decoding of revocation entries,
X.509 parsing, paginated listing, raw storage reads, serial display
conversion, and the optional read-only transaction capability. -/
structure Env where
  markerCA : Except Unit Int
  markerCRL : Except Unit Int
  markerDeltaCRL : Except Unit Int
  caInfo : Except GoErr CAInfo
  fetchCert : Str → Except GoErr (Option StorageEntry)
  fetchRevoked : Str → Except GoErr (Option StorageEntry)
  decodeRevocation : Bytes → Except Str RevocationInfo
  parseCertificate : Bytes → Except Str CertData
  listPage : Str → Str → Int → Except GoErr (List Str)
  storageGet : Str → Except GoErr (Option StorageEntry)
  denormalizeSerial : Str → Str
  txnAvailable : Bool
  beginTx : Except Str Unit

/-- A logical read request reaching `pathFetchRead`: the path, the `serial`
field value, and the parsed `If-Modified-Since` header if present. -/
structure Request where
  path : Str
  serialParam : Str
  ifModifiedSince : Option Int
deriving DecidableEq

/-- Modelled from the spec: `sendNotModifiedResponseIfNecessary`.  With no
`If-Modified-Since` header the gate passes.  If the class marker cannot be
read the gate fails open (no error, no short circuit).  If the marker time
is at or before the supplied timestamp it emits the terminal not-modified
response (empty content type, status 304) on the passed response. -/
def sendNotModifiedResponseIfNecessary (ims : Option Int)
    (marker : Except Unit Int) (resp : LResponse) :
    Bool × Option GoErr × LResponse :=
  match ims with
  | none => (false, none, resp)
  | some t =>
    match marker with
    | Except.error _ => (false, none, resp)
    | Except.ok m =>
      if m ≤ t then
        (true, none,
          ⟨dataInsert (dataInsert resp.data keyHTTPContentType (GoValue.vStr []))
            keyHTTPStatusCode (GoValue.vInt 304)⟩)
      else (false, none, resp)

/-- The local variables of `pathFetchRead` as they stand when control
transfers to the `reply` label. -/
structure FetchState where
  response : Option LResponse := some ⟨[]⟩
  retErr : Option GoErr := none
  contentType : Str := []
  pemType : Str := []
  certificate : Bytes := []
  fullChain : Bytes := []
  revocationTime : Int := 0
  revocationTimeRfc3339 : Str := []
  revocationIssuerId : Str := []
deriving DecidableEq

/-- Outcome of the resolution phase: either the direct
`return logical.ErrorResponse(...), nil` on a revocation decode failure
(line 583), or a state handed to the `reply` label. -/
inductive ResolveOut where
  | early (r : Option LResponse) (e : Option GoErr)
  | toReply (st : FetchState)
deriving DecidableEq

/-- The final outcome of a handler: the response, the Go error, and whether
the raw-path warning was logged. -/
structure FetchResult where
  response : Option LResponse
  err : Option GoErr
  warned : Bool
deriving DecidableEq

def ctPkixCert : Str := "application/pkix-cert".toList
def ctPemChain : Str := "application/pem-certificate-chain".toList
def ctPkixCRL : Str := "application/pkix-crl".toList
def ctPemFile : Str := "application/x-pem-file".toList

/-- Lines 491-591 of `pathFetchRead`: everything after the path `switch`,
given the computed `serial`, `contentType`, `pemType` and the (possibly
gate-updated) `response`. -/
def resolveWithSerial (env : Env) (serial ct pt : Str)
    (resp0 : Option LResponse) : ResolveOut :=
  if serial = [] then
    ResolveOut.toReply
      { response := some (errorResponse "The serial number must be provided".toList),
        contentType := ct, pemType := pt }
  else if serial = "ca_chain".toList ∨ serial = "ca".toList then
    match env.caInfo with
    | Except.error (GoErr.user m) =>
      ResolveOut.toReply
        { response := some (errorResponse m), contentType := ct, pemType := pt }
    | Except.error e =>
      ResolveOut.toReply
        { response := resp0, retErr := some e, contentType := ct, pemType := pt }
    | Except.ok caInfo =>
      if serial = "ca_chain".toList then
        let fullChain := strToBytes (buildChainStr caInfo.getFullChain)
        ResolveOut.toReply
          { response := resp0, contentType := ct, pemType := pt,
            certificate := fullChain, fullChain := fullChain }
      else
        let cert :=
          if pt ≠ [] then
            strToBytes (trimSpace (pemEncodeToMemory pt caInfo.certificateRaw))
          else caInfo.certificateRaw
        ResolveOut.toReply
          { response := resp0, contentType := ct, pemType := pt,
            certificate := cert }
  else
    match env.fetchCert serial with
    | Except.error (GoErr.user m) =>
      ResolveOut.toReply
        { response := some (errorResponse m), contentType := ct, pemType := pt }
    | Except.error e =>
      ResolveOut.toReply
        { response := resp0, retErr := some e, contentType := ct, pemType := pt }
    | Except.ok none =>
      ResolveOut.toReply { response := none, contentType := ct, pemType := pt }
    | Except.ok (some certEntry) =>
      let cert :=
        if pt ≠ [] then
          strToBytes (trimSpace (pemEncodeToMemory pt certEntry.value))
        else certEntry.value
      match env.fetchRevoked serial with
      | Except.error (GoErr.user m) =>
        ResolveOut.toReply
          { response := some (errorResponse m), contentType := ct,
            pemType := pt, certificate := cert }
      | Except.error e =>
        ResolveOut.toReply
          { response := resp0, retErr := some e, contentType := ct,
            pemType := pt, certificate := cert }
      | Except.ok none =>
        ResolveOut.toReply
          { response := resp0, contentType := ct, pemType := pt,
            certificate := cert }
      | Except.ok (some revokedEntry) =>
        match env.decodeRevocation revokedEntry.value with
        | Except.error m =>
          ResolveOut.early
            (some (errorResponse
              ("Error decoding revocation entry for serial ".toList ++ serial ++
                ": ".toList ++ m))) none
        | Except.ok revInfo =>
          ResolveOut.toReply
            { response := resp0, contentType := ct, pemType := pt,
              certificate := cert,
              revocationTime := revInfo.revocationTime,
              revocationTimeRfc3339 :=
                (match revInfo.revocationTimeUTC with
                 | some s => s
                 | none => []),
              revocationIssuerId := revInfo.certificateIssuer }

/-- The CA arm of the path `switch` (line 428). -/
def isCACase (p : Str) : Bool :=
  p == "ca".toList || p == "ca/pem".toList || p == "cert/ca".toList ||
    p == "cert/ca/raw".toList || p == "cert/ca/raw/pem".toList

/-- The CA-chain arm of the path `switch` (line 445). -/
def isCAChainCase (p : Str) : Bool :=
  p == "ca_chain".toList || p == "cert/ca_chain".toList

/-- The CRL arm of the path `switch` (line 450). -/
def isCRLCase (p : Str) : Bool :=
  p == "crl".toList || p == "crl/pem".toList || p == "crl/delta".toList ||
    p == "crl/delta/pem".toList || p == "cert/crl".toList ||
    p == "cert/crl/raw".toList || p == "cert/crl/raw/pem".toList ||
    p == "cert/delta-crl".toList || p == "cert/delta-crl/raw".toList ||
    p == "cert/delta-crl/raw/pem".toList

/-- The path `switch` of `pathFetchRead` (lines 427-490) followed by the
shared resolution tail. -/
def pathFetchResolve (env : Env) (req : Request) : ResolveOut :=
  let resp0 : LResponse := ⟨[]⟩
  if isCACase req.path then
    let g := sendNotModifiedResponseIfNecessary req.ifModifiedSince env.markerCA resp0
    if g.2.1.isSome || g.1 then
      ResolveOut.toReply { response := some g.2.2, retErr := g.2.1 }
    else
      let pemHit :=
        req.path == "ca/pem".toList || req.path == "cert/ca/raw/pem".toList
      let ct :=
        if pemHit then ctPemChain
        else if req.path == "cert/ca".toList then []
        else ctPkixCert
      let pt :=
        if pemHit || req.path == "cert/ca".toList then certTypeStr else []
      resolveWithSerial env ("ca".toList) ct pt (some g.2.2)
  else if isCAChainCase req.path then
    resolveWithSerial env ("ca_chain".toList)
      (if req.path == "ca_chain".toList then ctPkixCert else []) []
      (some resp0)
  else if isCRLCase req.path then
    let isDelta := goContains req.path "delta".toList
    let marker := if isDelta then env.markerDeltaCRL else env.markerCRL
    let g := sendNotModifiedResponseIfNecessary req.ifModifiedSince marker resp0
    if g.2.1.isSome || g.1 then
      ResolveOut.toReply { response := some g.2.2, retErr := g.2.1 }
    else
      let serial := if isDelta then deltaCRLPath else legacyCRLPath
      let pemHit := goContains req.path "pem".toList
      let ct :=
        if pemHit then ctPemFile
        else if req.path == "cert/crl".toList ||
            req.path == "cert/delta-crl".toList then []
        else ctPkixCRL
      let pt :=
        if pemHit || req.path == "cert/crl".toList ||
            req.path == "cert/delta-crl".toList then crlTypeStr
        else []
      resolveWithSerial env serial ct pt (some g.2.2)
  else if goHasSuffix req.path "/pem".toList || goHasSuffix req.path "/raw".toList then
    let pemHit := goHasSuffix req.path "/pem".toList
    resolveWithSerial env req.serialParam
      (if pemHit then ctPemChain else ctPkixCert)
      (if pemHit then certTypeStr else []) (some resp0)
  else
    resolveWithSerial env req.serialParam [] certTypeStr (some resp0)

/-- The `reply` label of `pathFetchRead` (lines 593-635). -/
def replyStep (st : FetchState) : FetchResult :=
  if st.contentType ≠ [] then
    let d0 :=
      dataInsert (dataInsert [] keyHTTPContentType (GoValue.vStr st.contentType))
        keyHTTPRawBody (GoValue.vBytes st.certificate)
    let warned := st.retErr.isSome
    let d1 :=
      dataInsert d0 keyHTTPStatusCode
        (GoValue.vInt (if st.certificate.length > 0 then 200 else 204))
    { response := some ⟨d1⟩, err := none, warned := warned }
  else if st.retErr.isSome then
    { response := none, err := st.retErr, warned := false }
  else
    match st.response with
    | none => { response := none, err := none, warned := false }
    | some r =>
      if r.isError then { response := some r, err := none, warned := false }
      else
        let d1 := dataInsert r.data keyCertificate
          (GoValue.vStr (bytesToStr st.certificate))
        let d2 := dataInsert d1 keyRevocationTime
          (GoValue.vInt st.revocationTime)
        let d3 := dataInsert d2 keyRevocationTimeRfc3339
          (GoValue.vStr st.revocationTimeRfc3339)
        let d4 :=
          if st.revocationIssuerId ≠ [] then
            dataInsert d3 keyIssuerId (GoValue.vStr st.revocationIssuerId)
          else d3
        let d5 :=
          if st.fullChain.length > 0 then
            dataInsert d4 keyCAChain (GoValue.vStr (bytesToStr st.fullChain))
          else d4
        { response := some ⟨d5⟩, err := none, warned := false }

/-- `pathFetchRead`: resolve, then reply (or the one direct return). -/
def pathFetchRead (env : Env) (req : Request) : FetchResult :=
  match pathFetchResolve env req with
  | ResolveOut.early r e => { response := r, err := e, warned := false }
  | ResolveOut.toReply st => replyStep st

/-- Per-serial metadata insertion (Go map assignment) for the detailed
listing response. -/
def infoInsert (d : List (Str × CertInfo)) (k : Str) (v : CertInfo) :
    List (Str × CertInfo) :=
  match d with
  | [] => [(k, v)]
  | (k', v') :: rest =>
    if k' = k then (k, v) :: rest else (k', v') :: infoInsert rest k v

/-- The metadata record built from a parsed certificate (lines 363-395):
at most 5 DNS names, and key type/bits per the public-key `switch`. -/
def certInfoOf (cd : CertData) : CertInfo :=
  let dns := if cd.dnsNames.length > 5 then cd.dnsNames.take 5 else cd.dnsNames
  let kb :=
    match cd.publicKey with
    | PubKey.rsa byteSize => (byteSize * 8, "rsa".toList)
    | PubKey.ec bitSize => (bitSize, "ec".toList)
    | PubKey.ed25519 => (256, "ed25519".toList)
    | PubKey.unknown => (0, "unknown".toList)
  { commonName := cd.subjectCommonName, issuer := cd.issuerString,
    keyType := kb.2, keyBits := kb.1, notAfter := cd.notAfter,
    notBefore := cd.notBefore, dnsNames := dns }

/-- Modelled from the spec: `logical.ListResponseWithInfo` places the keys
under `"keys"` and the metadata map under `"key_info"`, omitting either
when empty. -/
def listResponseWithInfo (keys : List Str) (info : List (Str × CertInfo)) :
    LResponse :=
  ⟨(if keys = [] then [] else [(keyKeys, GoValue.vStrList keys)]) ++
    (if info = [] then [] else [(keyKeyInfo, GoValue.vInfo info)])⟩

/-- The per-entry loop of `pathFetchCertListDetailed` (lines 344-396):
re-read each listed serial, fail the whole operation on a storage error, on
a vanished entry, or on an X.509 parse failure (naming the serial), and
otherwise accumulate the display serial and its metadata. -/
def processEntries (env : Env) :
    List Str → List Str → List (Str × CertInfo) → Option LResponse × Option GoErr
  | [], keys, info => (some (listResponseWithInfo keys info), none)
  | e :: rest, keys, info =>
    match env.storageGet ("certs/".toList ++ e) with
    | Except.error err => (none, some err)
    | Except.ok none =>
      (some (errorResponse ("failed to retrieve entry for ".toList ++ e)), none)
    | Except.ok (some entry) =>
      let d := env.denormalizeSerial e
      let keys' := keys ++ [d]
      match env.parseCertificate entry.value with
      | Except.error msg =>
        (some (errorResponse
          ("failed to parse certificate for ".toList ++ d ++ ": ".toList ++ msg)),
          none)
      | Except.ok cd =>
        processEntries env rest keys' (infoInsert info d (certInfoOf cd))

/-- `pathFetchCertListDetailed` (lines 316-401): normalise the limit, take a
read-only transaction when the backend offers one (failing the operation if
it cannot be begun), list a page of serials, and process each entry. -/
def pathFetchCertListDetailed (env : Env) (after : Str) (limit : Int) :
    Option LResponse × Option GoErr :=
  let lim : Int := if limit ≤ 0 then -1 else limit
  match (if env.txnAvailable then env.beginTx else Except.ok ()) with
  | Except.error e =>
    (none,
      some (GoErr.internal ("failed to start read-only transaction: ".toList ++ e)))
  | Except.ok _ =>
    match env.listPage ("certs/".toList) after lim with
    | Except.error e => (none, some e)
    | Except.ok entries => processEntries env entries [] []

/-- One listed serial processes cleanly in the detailed listing: its entry
is present in storage and its bytes parse as X.509. -/
def entryParses (env : Env) (x : Str) : Bool :=
  match env.storageGet ("certs/".toList ++ x) with
  | Except.ok (some en) =>
    (match env.parseCertificate en.value with
     | Except.ok _ => true
     | Except.error _ => false)
  | _ => false

/-- A concrete environment: conditional markers unreadable, no CA
configured, empty certificate store, one listed serial that is gone on
re-read. -/
def envW : Env := {
  markerCA := Except.error (),
  markerCRL := Except.error (),
  markerDeltaCRL := Except.error (),
  caInfo := Except.error (GoErr.user ("no CA configured".toList)),
  fetchCert := fun _ => Except.ok none,
  fetchRevoked := fun _ => Except.ok none,
  decodeRevocation := fun _ => Except.error [],
  parseCertificate := fun _ => Except.error [],
  listPage := fun _ _ _ => Except.ok ["0a".toList],
  storageGet := fun _ => Except.ok none,
  denormalizeSerial := fun s => s,
  txnAvailable := false,
  beginTx := Except.ok () }

/-- A concrete environment: a CA with a one-element chain, a stored
certificate for every serial, a revocation entry for serial `0a` that
decodes to a populated record, and a stored-but-unparsable listing entry. -/
def envW2 : Env := {
  markerCA := Except.ok 100,
  markerCRL := Except.ok 100,
  markerDeltaCRL := Except.ok 100,
  caInfo := Except.ok { certificateRaw := [1, 2], chain := [[3]] },
  fetchCert := fun _ => Except.ok (some ⟨[3, 4]⟩),
  fetchRevoked := fun s =>
    if s = "0a".toList then Except.ok (some ⟨[5]⟩) else Except.ok none,
  decodeRevocation := fun _ =>
    Except.ok ⟨1234, some ("2024-01-01T00:00:00Z".toList), "issuer1".toList⟩,
  parseCertificate := fun _ => Except.error ("boom".toList),
  listPage := fun _ _ _ => Except.ok ["0a".toList],
  storageGet := fun _ => Except.ok (some ⟨[9]⟩),
  denormalizeSerial := fun s => s,
  txnAvailable := false,
  beginTx := Except.ok () }

/-- A concrete environment: the revocation entry for serial `0a` exists but
fails to decode. -/
def envW3 : Env :=
  { envW2 with decodeRevocation := fun _ => Except.error ("corrupt".toList) }

/-- A concrete environment for the legacy-record scenario: the revocation
entry exists but decodes with a zero revocation time and an empty issuer
identifier. -/
def envW4 : Env :=
  { envW2 with decodeRevocation := fun _ => Except.ok ⟨0, none, []⟩ }

/-- A concrete environment in which every certificate read fails with an
internal storage error. -/
def envW5 : Env :=
  { envW2 with fetchCert := fun _ => Except.error (GoErr.internal ("disk".toList)) }

/-- A raw-path reply state carrying a pending internal error. -/
def stRawW : FetchState :=
  { contentType := ctPkixCert, certificate := [1],
    retErr := some (GoErr.internal ("boom".toList)) }

/-- A concrete serial-keyed structured request. -/
def reqCert0a : Request :=
  { path := "cert/0a".toList, serialParam := "0a".toList,
    ifModifiedSince := none }

/-! ### Newline-structure lemmas -/

theorem hasConsecNL_cons (a : Char) (z : Str) :
    hasConsecNL (a :: z) =
      ((a == '\n') && (z.head? == some '\n') || hasConsecNL z) := by
  cases z with
  | nil => simp [hasConsecNL]
  | cons b z' => rfl

theorem hasConsecNL_of_not_mem {l : Str} (h : '\n' ∉ l) :
    hasConsecNL l = false := by
  induction l with
  | nil => rfl
  | cons a t ih =>
    have ha : a ≠ '\n' := by
      intro e
      exact h (e ▸ List.mem_cons_self a t)
    have ht : '\n' ∉ t := fun m => h (List.mem_cons_of_mem a m)
    rw [hasConsecNL_cons, ih ht]
    simp only [Bool.or_false, Bool.and_eq_false_iff, beq_eq_false_iff_ne]
    exact Or.inl ha

theorem joinNL_cons (l l' : Str) (rest : List Str) :
    joinNL (l :: l' :: rest) = l ++ '\n' :: joinNL (l' :: rest) := rfl

theorem joinNL_ne_nil {L : List Str} (hL : L ≠ []) (h : ∀ l ∈ L, l ≠ []) :
    joinNL L ≠ [] := by
  cases L with
  | nil => exact absurd rfl hL
  | cons l rest =>
    cases rest with
    | nil => exact h l (List.mem_cons_self _ _)
    | cons l' rest' =>
      rw [joinNL_cons]
      cases l with
      | nil => simp
      | cons a t => simp

theorem joinNL_head? (l : Str) (rest : List Str) (hl : l ≠ []) :
    (joinNL (l :: rest)).head? = l.head? := by
  cases rest with
  | nil => rfl
  | cons l' rest' =>
    rw [joinNL_cons]
    exact List.head?_append_of_ne_nil l hl

theorem joinNL_getLast? (L : List Str) (l : Str)
    (h : ∀ x ∈ L ++ [l], x ≠ []) :
    (joinNL (L ++ [l])).getLast? = l.getLast? := by
  induction L with
  | nil => rfl
  | cons a L ih =>
    have h' : ∀ x ∈ L ++ [l], x ≠ [] :=
      fun x hx => h x (List.mem_cons_of_mem a hx)
    obtain ⟨b, M, hbM⟩ : ∃ b M, L ++ [l] = b :: M := by
      cases L with
      | nil => exact ⟨l, [], rfl⟩
      | cons c L' => exact ⟨c, L' ++ [l], rfl⟩
    have hne : joinNL (L ++ [l]) ≠ [] :=
      joinNL_ne_nil (by rw [hbM]; exact List.cons_ne_nil _ _) h'
    rw [List.cons_append, hbM, joinNL_cons, ← hbM]
    rw [List.getLast?_append_of_ne_nil a (List.cons_ne_nil _ _)]
    obtain ⟨c, z, hz⟩ : ∃ c z, joinNL (L ++ [l]) = c :: z := by
      cases hJ : joinNL (L ++ [l]) with
      | nil => exact absurd hJ hne
      | cons c z => exact ⟨c, z, rfl⟩
    rw [hz, List.getLast?_cons_cons, ← hz]
    exact ih h'

theorem hasConsecNL_append (x y : Str) (hx : hasConsecNL x = false)
    (hy : hasConsecNL y = false)
    (hmid : x.getLast? ≠ some '\n' ∨ y.head? ≠ some '\n') :
    hasConsecNL (x ++ y) = false := by
  induction x with
  | nil => simpa using hy
  | cons a x ih =>
    rw [hasConsecNL_cons] at hx
    obtain ⟨hx1, hx2⟩ := Bool.or_eq_false_iff.mp hx
    rw [List.cons_append, hasConsecNL_cons]
    cases x with
    | nil =>
      have hor : (a == '\n') = false ∨ (y.head? == some '\n') = false := by
        rcases hmid with h | h
        · left
          have ha : a ≠ '\n' := by
            intro e
            exact h (by simp [e])
          simp [ha]
        · right
          simp [h]
      simp only [List.nil_append]
      rcases hor with h | h <;> simp [h, hy]
    | cons b x' =>
      have hmid' : (b :: x').getLast? ≠ some '\n' ∨ y.head? ≠ some '\n' := by
        rcases hmid with h | h
        · left
          rwa [List.getLast?_cons_cons] at h
        · right
          exact h
      have hih := ih hx2 hmid'
      have hh : ((b :: x') ++ y).head? = some b := rfl
      have hb : ((b :: x').head? == some '\n') = (some b == some '\n') := rfl
      rw [hh, hih]
      rw [hb] at hx1
      simp only [Bool.or_false]
      exact hx1

theorem goodStr_of_no_newline {l : Str} (h1 : l ≠ []) (h2 : '\n' ∉ l) :
    GoodStr l := by
  refine ⟨h1, hasConsecNL_of_not_mem h2, ?_, ?_⟩
  · intro e
    exact h2 (List.mem_of_mem_head? (by rw [e]; rfl))
  · intro e
    exact h2 (List.mem_of_mem_getLast? (by rw [e]; rfl))

theorem joinNL_props (L : List Str) (h : ∀ t ∈ L, GoodStr t) :
    hasConsecNL (joinNL L) = false ∧ (joinNL L).head? ≠ some '\n' ∧
      (joinNL L).getLast? ≠ some '\n' := by
  induction L with
  | nil => exact ⟨rfl, by simp [joinNL], by simp [joinNL]⟩
  | cons l rest ih =>
    obtain ⟨hlne, hlcons, hlhd, hllast⟩ := h l (List.mem_cons_self _ _)
    have hrest : ∀ t ∈ rest, GoodStr t :=
      fun t ht => h t (List.mem_cons_of_mem _ ht)
    obtain ⟨ih1, ih2, ih3⟩ := ih hrest
    cases rest with
    | nil => exact ⟨hlcons, hlhd, hllast⟩
    | cons l' rest' =>
      have hJne : joinNL (l' :: rest') ≠ [] :=
        joinNL_ne_nil (List.cons_ne_nil _ _) (fun x hx => (hrest x hx).1)
      refine ⟨?_, ?_, ?_⟩
      · rw [joinNL_cons]
        apply hasConsecNL_append _ _ hlcons
        · rw [hasConsecNL_cons, ih1]
          simp [ih2]
        · exact Or.inl hllast
      · rw [joinNL_head? l _ hlne]
        exact hlhd
      · rw [joinNL_cons]
        rw [List.getLast?_append_of_ne_nil l (List.cons_ne_nil _ _)]
        obtain ⟨c, z, hz⟩ : ∃ c z, joinNL (l' :: rest') = c :: z := by
          cases hJ : joinNL (l' :: rest') with
          | nil => exact absurd hJ hJne
          | cons c z => exact ⟨c, z, rfl⟩
        rw [hz, List.getLast?_cons_cons, ← hz]
        exact ih3

theorem goodStr_joinNL {L : List Str} (hL : L ≠ [])
    (h : ∀ t ∈ L, GoodStr t) : GoodStr (joinNL L) := by
  obtain ⟨h1, h2, h3⟩ := joinNL_props L h
  exact ⟨joinNL_ne_nil hL (fun l hl => (h l hl).1), h1, h2, h3⟩

/-! ### PEM encoding lemmas -/

theorem b64Char_mem (n : Nat) : b64Char n ∈ base64Alphabet := by
  unfold b64Char
  rcases Nat.lt_or_ge n base64Alphabet.length with h | h
  · rw [List.getD_eq_getElem?_getD, List.getElem?_eq_getElem h]
    exact List.getElem_mem _
  · rw [List.getD_eq_getElem?_getD, List.getElem?_eq_none h]
    decide

theorem b64Char_not_space (n : Nat) :
    isGoSpace (b64Char n) = false ∧ b64Char n ≠ '\n' := by
  have hall : ∀ c ∈ base64Alphabet, isGoSpace c = false ∧ c ≠ '\n' := by
    decide
  exact hall _ (b64Char_mem n)

theorem b64encode_not_space :
    ∀ b : Bytes, ∀ c ∈ b64encode b, isGoSpace c = false ∧ c ≠ '\n'
  | [], c, hc => absurd hc (List.not_mem_nil c)
  | a :: [], c, hc => by
    rcases hc with _ | ⟨_, _ | ⟨_, _ | ⟨_, h⟩⟩⟩
    · exact b64Char_not_space _
    · exact b64Char_not_space _
    · exact ⟨by decide, by decide⟩
    · rcases h with _ | ⟨_, h⟩
      · exact ⟨by decide, by decide⟩
      · exact absurd h (List.not_mem_nil c)
  | a :: b :: [], c, hc => by
    rcases hc with _ | ⟨_, _ | ⟨_, _ | ⟨_, h⟩⟩⟩
    · exact b64Char_not_space _
    · exact b64Char_not_space _
    · exact b64Char_not_space _
    · rcases h with _ | ⟨_, h⟩
      · exact ⟨by decide, by decide⟩
      · exact absurd h (List.not_mem_nil c)
  | a :: b :: d :: rest, c, hc => by
    rcases hc with _ | ⟨_, _ | ⟨_, _ | ⟨_, _ | ⟨_, h⟩⟩⟩⟩
    · exact b64Char_not_space _
    · exact b64Char_not_space _
    · exact b64Char_not_space _
    · exact b64Char_not_space _
    · exact b64encode_not_space rest c h

theorem chunks64Aux_spec :
    ∀ (fuel : Nat) (s : Str), ∀ l ∈ chunks64Aux fuel s,
      l ≠ [] ∧ ∀ c ∈ l, c ∈ s := by
  intro fuel
  induction fuel with
  | zero =>
    intro s l hl
    match s, hl with
    | a :: t, hl =>
      rcases hl with _ | ⟨_, h⟩
      · exact ⟨List.cons_ne_nil _ _, fun c hc => hc⟩
      · exact absurd h (List.not_mem_nil l)
  | succ fuel ih =>
    intro s l hl
    match s, hl with
    | a :: t, hl =>
      rcases hl with _ | ⟨_, h⟩
      · refine ⟨by simp [List.take], ?_⟩
        exact fun c hc => List.take_subset _ _ hc
      · obtain ⟨h1, h2⟩ := ih ((a :: t).drop 64) l h
        exact ⟨h1, fun c hc => List.drop_subset _ _ (h2 c hc)⟩

theorem chunks64_spec (s : Str) :
    ∀ l ∈ chunks64 s, l ≠ [] ∧ ∀ c ∈ l, c ∈ s :=
  chunks64Aux_spec s.length s

theorem pemHeader_head? (t : Str) : (pemHeader t).head? = some '-' := by
  unfold pemHeader
  rw [List.head?_append_of_ne_nil _
    (show "-----BEGIN ".toList ++ t ≠ [] by simp)]
  rw [List.head?_append_of_ne_nil _
    (show ("-----BEGIN ".toList : Str) ≠ [] by decide)]
  decide

theorem pemFooter_getLast? (t : Str) : (pemFooter t).getLast? = some '-' := by
  unfold pemFooter
  rw [List.getLast?_append_of_ne_nil _
    (show ("-----".toList : Str) ≠ [] by decide)]
  decide

theorem pemLines_good (t : Str) (b : Bytes) (ht : '\n' ∉ t) :
    ∀ l ∈ pemLines t b, l ≠ [] ∧ '\n' ∉ l := by
  intro l hl
  rcases hl with _ | ⟨_, h⟩
  · constructor
    · intro e
      have := pemHeader_head? t
      rw [e] at this
      exact absurd this (by decide)
    · intro hm
      unfold pemHeader at hm
      rcases List.mem_append.mp hm with h1 | h1
      · rcases List.mem_append.mp h1 with h2 | h2
        · exact absurd h2 (by decide)
        · exact ht h2
      · exact absurd h1 (by decide)
  · rcases List.mem_append.mp h with h1 | h1
    · obtain ⟨hne, hsub⟩ := chunks64_spec (b64encode b) l h1
      refine ⟨hne, fun hm => ?_⟩
      exact (b64encode_not_space b '\n' (hsub _ hm)).2 rfl
    · have : l = pemFooter t := by
        rcases h1 with _ | ⟨_, h2⟩
        · rfl
        · exact absurd h2 (List.not_mem_nil l)
      subst this
      constructor
      · intro e
        have := pemFooter_getLast? t
        rw [e] at this
        exact absurd this (by decide)
      · intro hm
        unfold pemFooter at hm
        rcases List.mem_append.mp hm with h1 | h1
        · rcases List.mem_append.mp h1 with h2 | h2
          · exact absurd h2 (by decide)
          · exact ht h2
        · exact absurd h1 (by decide)

theorem joinLinesNL_eq : ∀ (L : List Str), L ≠ [] →
    joinLinesNL L = joinNL L ++ ['\n']
  | [], h => absurd rfl h
  | [l], _ => rfl
  | l :: l' :: rest, _ => by
    have ih := joinLinesNL_eq (l' :: rest) (List.cons_ne_nil _ _)
    show l ++ '\n' :: joinLinesNL (l' :: rest) = _
    rw [ih, joinNL_cons]
    simp

/-! ### Trimming lemmas -/

theorem dropWhile_eq_self_of_head {s : Str} {c : Char}
    (h : s.head? = some c) (hc : isGoSpace c = false) :
    s.dropWhile isGoSpace = s := by
  cases s with
  | nil => rfl
  | cons a t =>
    have : a = c := by
      simpa using h
    rw [List.dropWhile_cons, this, hc]
    simp

theorem trimLeft_eq_self {s : Str} {c : Char}
    (h : s.head? = some c) (hc : isGoSpace c = false) :
    trimLeftSpace s = s :=
  dropWhile_eq_self_of_head h hc

theorem trimRight_eq_self {s : Str} {c : Char}
    (h : s.getLast? = some c) (hc : isGoSpace c = false) :
    trimRightSpace s = s := by
  unfold trimRightSpace
  have hr : s.reverse.head? = some c := by
    rw [List.head?_reverse]
    exact h
  rw [dropWhile_eq_self_of_head hr hc, List.reverse_reverse]

theorem trimRight_append_newline (s : Str) :
    trimRightSpace (s ++ ['\n']) = trimRightSpace s := by
  unfold trimRightSpace
  have hrev : (s ++ ['\n']).reverse = '\n' :: s.reverse := by simp
  rw [hrev, List.dropWhile_cons, if_pos (by decide)]

theorem trimLeft_cons_newline (s : Str) :
    trimLeftSpace ('\n' :: s) = trimLeftSpace s := by
  unfold trimLeftSpace
  rw [List.dropWhile_cons, if_pos (by decide)]

/-! ### Trimmed PEM blocks -/

theorem trimSpace_pemEncode (t : Str) (b : Bytes) (ht : '\n' ∉ t) :
    trimSpace (pemEncodeToMemory t b) = joinNL (pemLines t b) := by
  have hlines := pemLines_good t b ht
  have hLne : pemLines t b ≠ [] := List.cons_ne_nil _ _
  have hJne : joinNL (pemLines t b) ≠ [] :=
    joinNL_ne_nil hLne (fun l hl => (hlines l hl).1)
  have hhd : (joinNL (pemLines t b)).head? = some '-' := by
    show (joinNL (pemHeader t :: (chunks64 (b64encode b) ++ [pemFooter t]))).head? = _
    rw [joinNL_head? _ _ (hlines (pemHeader t) (List.mem_cons_self _ _)).1]
    exact pemHeader_head? t
  have hlast : (joinNL (pemLines t b)).getLast? = some '-' := by
    have heq : pemLines t b =
        (pemHeader t :: chunks64 (b64encode b)) ++ [pemFooter t] := rfl
    rw [heq, joinNL_getLast? _ _ (fun x hx => (hlines x hx).1)]
    exact pemFooter_getLast? t
  unfold pemEncodeToMemory
  rw [joinLinesNL_eq _ hLne]
  unfold trimSpace
  rw [trimLeft_eq_self
    (show (joinNL (pemLines t b) ++ ['\n']).head? = some '-' by
      rw [List.head?_append_of_ne_nil _ hJne]
      exact hhd) (by decide)]
  rw [trimRight_append_newline]
  exact trimRight_eq_self hlast (by decide)

theorem trimmedPem_eq (b : Bytes) :
    trimSpace (pemEncodeToMemory certTypeStr b) =
      joinNL (pemLines certTypeStr b) :=
  trimSpace_pemEncode certTypeStr b (by decide)

theorem trimmedPem_good (b : Bytes) :
    GoodStr (trimSpace (pemEncodeToMemory certTypeStr b)) := by
  rw [trimmedPem_eq]
  refine goodStr_joinNL (List.cons_ne_nil _ _) (fun l hl => ?_)
  obtain ⟨h1, h2⟩ := pemLines_good certTypeStr b (by decide) l hl
  exact goodStr_of_no_newline h1 h2

theorem trimmedPem_head? (b : Bytes) :
    (trimSpace (pemEncodeToMemory certTypeStr b)).head? = some '-' := by
  rw [trimmedPem_eq]
  show (joinNL (pemHeader certTypeStr ::
    (chunks64 (b64encode b) ++ [pemFooter certTypeStr]))).head? = _
  rw [joinNL_head? _ _
    ((pemLines_good certTypeStr b (by decide)) _ (List.mem_cons_self _ _)).1]
  exact pemHeader_head? _

theorem trimmedPem_getLast? (b : Bytes) :
    (trimSpace (pemEncodeToMemory certTypeStr b)).getLast? = some '-' := by
  rw [trimmedPem_eq]
  have heq : pemLines certTypeStr b =
      (pemHeader certTypeStr :: chunks64 (b64encode b)) ++
        [pemFooter certTypeStr] := rfl
  rw [heq, joinNL_getLast? _ _
    (fun x hx => (pemLines_good certTypeStr b (by decide) x hx).1)]
  exact pemFooter_getLast? _

/-! ### Chain string assembly -/

theorem foldl_chainStr (f : Bytes → Str) :
    ∀ (l : List Bytes) (acc : Str),
      l.foldl (fun a c => a ++ '\n' :: f c) acc = acc ++ prependNL (l.map f) := by
  intro l
  induction l with
  | nil =>
    intro acc
    simp [prependNL]
  | cons c l ih =>
    intro acc
    rw [List.foldl_cons, ih, List.map_cons]
    show _ = acc ++ ('\n' :: (f c ++ prependNL (l.map f)))
    rw [List.append_assoc]
    rfl

theorem prependNL_eq : ∀ (ts : List Str), ts ≠ [] →
    prependNL ts = '\n' :: joinNL ts
  | [], h => absurd rfl h
  | [t], _ => by simp [prependNL, joinNL]
  | t :: t' :: rest, _ => by
    have ih := prependNL_eq (t' :: rest) (List.cons_ne_nil _ _)
    show '\n' :: (t ++ prependNL (t' :: rest)) = _
    rw [ih, joinNL_cons]

theorem buildChainStr_eq (chain : List Bytes) :
    buildChainStr chain =
      joinNL (chain.map
        (fun der => trimSpace (pemEncodeToMemory certTypeStr der))) := by
  unfold buildChainStr
  rw [foldl_chainStr]
  cases hm : chain.map
      (fun der => trimSpace (pemEncodeToMemory certTypeStr der)) with
  | nil => rfl
  | cons t ts =>
    have hhd : t.head? = some '-' := by
      cases chain with
      | nil => simp at hm
      | cons der rest =>
        rw [List.map_cons] at hm
        injection hm with h1 h2
        rw [← h1]
        exact trimmedPem_head? der
    have hall : ∀ x ∈ t :: ts, GoodStr x := by
      intro x hx
      have hx' : x ∈ chain.map
          (fun der => trimSpace (pemEncodeToMemory certTypeStr der)) := by
        rw [hm]
        exact hx
      obtain ⟨der, _, rfl⟩ := List.mem_map.mp hx'
      exact trimmedPem_good der
    have hton : t ≠ [] := by
      intro e
      rw [e] at hhd
      exact absurd hhd (by decide)
    rw [List.nil_append, prependNL_eq _ (List.cons_ne_nil _ _)]
    unfold trimSpace
    rw [trimLeft_cons_newline]
    have hJhd : (joinNL (t :: ts)).head? = some '-' := by
      rw [joinNL_head? _ _ hton]
      exact hhd
    rw [trimLeft_eq_self hJhd (by decide)]
    obtain ⟨M, last, hMl⟩ : ∃ M last, t :: ts = M ++ [last] := by
      rcases List.eq_nil_or_concat (t :: ts) with h | ⟨M, last, h⟩
      · exact absurd h (List.cons_ne_nil _ _)
      · exact ⟨M, last, by rw [h, List.concat_eq_append]⟩
    have hlast_mem : last ∈ t :: ts := by
      rw [hMl]
      simp
    have hlastq : last.getLast? = some '-' := by
      have hl' : last ∈ chain.map
          (fun der => trimSpace (pemEncodeToMemory certTypeStr der)) := by
        rw [hm]
        exact hlast_mem
      obtain ⟨der, _, rfl⟩ := List.mem_map.mp hl'
      exact trimmedPem_getLast? der
    have hJlast : (joinNL (t :: ts)).getLast? = some '-' := by
      rw [hMl, joinNL_getLast? _ _
        (fun x hx => (hall x (by rw [hMl]; exact hx)).1)]
      exact hlastq
    exact trimRight_eq_self hJlast (by decide)

theorem buildChainStr_props (chain : List Bytes) :
    hasConsecNL (buildChainStr chain) = false ∧
      (buildChainStr chain).head? ≠ some '\n' ∧
      (buildChainStr chain).getLast? ≠ some '\n' := by
  rw [buildChainStr_eq]
  apply joinNL_props
  intro x hx
  obtain ⟨der, _, rfl⟩ := List.mem_map.mp hx
  exact trimmedPem_good der

theorem buildChainStr_ne_nil (c0 : Bytes) (rest : List Bytes) :
    buildChainStr (c0 :: rest) ≠ [] := by
  rw [buildChainStr_eq, List.map_cons]
  apply joinNL_ne_nil (List.cons_ne_nil _ _)
  intro l hl
  rcases hl with _ | ⟨_, h⟩
  · exact (trimmedPem_good c0).1
  · obtain ⟨der, _, rfl⟩ := List.mem_map.mp h
    exact (trimmedPem_good der).1

/-! ### Dispatch and reply lemmas -/

theorem replyStep_raw (st : FetchState) (h : st.contentType ≠ []) :
    replyStep st =
      { response := some ⟨[(keyHTTPContentType, GoValue.vStr st.contentType),
          (keyHTTPRawBody, GoValue.vBytes st.certificate),
          (keyHTTPStatusCode,
            GoValue.vInt (if st.certificate.length > 0 then 200 else 204))]⟩,
        err := none, warned := st.retErr.isSome } := by
  unfold replyStep
  rw [if_pos h]
  rfl

theorem dispatch_default (env : Env) (req : Request)
    (h1 : isCACase req.path = false) (h2 : isCAChainCase req.path = false)
    (h3 : isCRLCase req.path = false)
    (h4 : goHasSuffix req.path ("/pem".toList) = false)
    (h5 : goHasSuffix req.path ("/raw".toList) = false) :
    pathFetchResolve env req =
      resolveWithSerial env req.serialParam [] certTypeStr (some ⟨[]⟩) := by
  unfold pathFetchResolve
  simp only [h1, h2, h3, h4, h5]
  rfl

theorem dispatch_pem (env : Env) (req : Request)
    (h1 : isCACase req.path = false) (h2 : isCAChainCase req.path = false)
    (h3 : isCRLCase req.path = false)
    (h4 : goHasSuffix req.path ("/pem".toList) = true) :
    pathFetchResolve env req =
      resolveWithSerial env req.serialParam ctPemChain certTypeStr
        (some ⟨[]⟩) := by
  unfold pathFetchResolve
  simp only [h1, h2, h3, h4]
  rfl

theorem dispatch_raw (env : Env) (req : Request)
    (h1 : isCACase req.path = false) (h2 : isCAChainCase req.path = false)
    (h3 : isCRLCase req.path = false)
    (h4 : goHasSuffix req.path ("/pem".toList) = false)
    (h5 : goHasSuffix req.path ("/raw".toList) = true) :
    pathFetchResolve env req =
      resolveWithSerial env req.serialParam ctPkixCert [] (some ⟨[]⟩) := by
  unfold pathFetchResolve
  simp only [h1, h2, h3, h4, h5]
  rfl

theorem resolveWithSerial_notfound (env : Env) (serial ct pt : Str)
    (r0 : Option LResponse) (h0 : serial ≠ [])
    (h1 : serial ≠ "ca_chain".toList) (h2 : serial ≠ "ca".toList)
    (hf : env.fetchCert serial = Except.ok none) :
    resolveWithSerial env serial ct pt r0 =
      ResolveOut.toReply { response := none, contentType := ct, pemType := pt } := by
  unfold resolveWithSerial
  rw [if_neg h0, if_neg (by rintro (h | h) <;> [exact h1 h; exact h2 h])]
  simp only [hf]

theorem resolveWithSerial_decodeErr (env : Env) (serial ct pt : Str)
    (r0 : Option LResponse) (certEntry revokedEntry : StorageEntry) (m : Str)
    (h0 : serial ≠ []) (h1 : serial ≠ "ca_chain".toList)
    (h2 : serial ≠ "ca".toList)
    (hf : env.fetchCert serial = Except.ok (some certEntry))
    (hr : env.fetchRevoked serial = Except.ok (some revokedEntry))
    (hd : env.decodeRevocation revokedEntry.value = Except.error m) :
    resolveWithSerial env serial ct pt r0 =
      ResolveOut.early
        (some (errorResponse
          ("Error decoding revocation entry for serial ".toList ++ serial ++
            ": ".toList ++ m))) none := by
  unfold resolveWithSerial
  rw [if_neg h0, if_neg (by rintro (h | h) <;> [exact h1 h; exact h2 h])]
  simp only [hf, hr, hd]

theorem resolveWithSerial_found_notRevoked (env : Env) (serial ct pt : Str)
    (r0 : Option LResponse) (certEntry : StorageEntry)
    (h0 : serial ≠ []) (h1 : serial ≠ "ca_chain".toList)
    (h2 : serial ≠ "ca".toList)
    (hf : env.fetchCert serial = Except.ok (some certEntry))
    (hr : env.fetchRevoked serial = Except.ok none) :
    resolveWithSerial env serial ct pt r0 =
      ResolveOut.toReply
        { response := r0, contentType := ct, pemType := pt,
          certificate :=
            if pt ≠ [] then
              strToBytes (trimSpace (pemEncodeToMemory pt certEntry.value))
            else certEntry.value } := by
  unfold resolveWithSerial
  rw [if_neg h0, if_neg (by rintro (h | h) <;> [exact h1 h; exact h2 h])]
  simp only [hf, hr]

theorem resolveWithSerial_found_revoked (env : Env) (serial ct pt : Str)
    (r0 : Option LResponse) (certEntry revokedEntry : StorageEntry)
    (revInfo : RevocationInfo)
    (h0 : serial ≠ []) (h1 : serial ≠ "ca_chain".toList)
    (h2 : serial ≠ "ca".toList)
    (hf : env.fetchCert serial = Except.ok (some certEntry))
    (hr : env.fetchRevoked serial = Except.ok (some revokedEntry))
    (hd : env.decodeRevocation revokedEntry.value = Except.ok revInfo) :
    resolveWithSerial env serial ct pt r0 =
      ResolveOut.toReply
        { response := r0, contentType := ct, pemType := pt,
          certificate :=
            if pt ≠ [] then
              strToBytes (trimSpace (pemEncodeToMemory pt certEntry.value))
            else certEntry.value,
          revocationTime := revInfo.revocationTime,
          revocationTimeRfc3339 :=
            (match revInfo.revocationTimeUTC with
             | some s => s
             | none => []),
          revocationIssuerId := revInfo.certificateIssuer } := by
  unfold resolveWithSerial
  rw [if_neg h0, if_neg (by rintro (h | h) <;> [exact h1 h; exact h2 h])]
  simp only [hf, hr, hd]

/-! ### Gate lemmas -/

theorem gate_no_error (ims : Option Int) (marker : Except Unit Int)
    (resp : LResponse) :
    (sendNotModifiedResponseIfNecessary ims marker resp).2.1 = none := by
  unfold sendNotModifiedResponseIfNecessary
  rcases ims with _ | t
  · rfl
  · rcases marker with e | m
    · rfl
    · dsimp only
      split <;> rfl

theorem resolveWithSerial_contentType (env : Env) (serial ct pt : Str)
    (r0 : Option LResponse) (st : FetchState)
    (h : resolveWithSerial env serial ct pt r0 = ResolveOut.toReply st) :
    st.contentType = ct := by
  unfold resolveWithSerial at h
  repeat' split at h
  all_goals
    first
      | (injection h with h2 ; rw [← h2])
      | simp at h

/-! ### Claim theorems -/

/-- C4: for every CA chain of length 0, 1 or N, the assembled `ca_chain`
output equals the chain certificates each independently PEM-encoded with
type `CERTIFICATE`, individually whitespace-trimmed, joined by single
newline separators; and the resulting text contains no blank line (no
leading newline and no doubled newline) and no trailing newline. -/
theorem claim_C4_chain_format (chain : List Bytes) :
    buildChainStr chain =
      joinNL (chain.map
        (fun der => trimSpace (pemEncodeToMemory certTypeStr der))) ∧
    hasConsecNL (buildChainStr chain) = false ∧
    (buildChainStr chain).head? ≠ some '\n' ∧
    (buildChainStr chain).getLast? ≠ some '\n' := by
  obtain ⟨h1, h2, h3⟩ := buildChainStr_props chain
  exact ⟨buildChainStr_eq chain, h1, h2, h3⟩

/-- C5: at the reply point of every raw fetch (non-empty content type) the
response carries status 200 exactly when the resolved body is non-empty and
204 when it is empty, never an error; and fetching `ca` with no CA
configured (a `UserError` from `fetchCAInfo`) returns the empty raw body
with status 204 rather than an error. -/
theorem claim_C5_raw_status :
    (∀ st : FetchState, st.contentType ≠ [] →
      ∃ r, (replyStep st).response = some r ∧ (replyStep st).err = none ∧
        dataGet r.data keyHTTPStatusCode =
          some (GoValue.vInt (if st.certificate = [] then 204 else 200)) ∧
        dataGet r.data keyHTTPRawBody = some (GoValue.vBytes st.certificate)) ∧
    (∀ (env : Env) (req : Request) (m : Str),
      req.path = "ca".toList → req.ifModifiedSince = none →
      env.caInfo = Except.error (GoErr.user m) →
      pathFetchRead env req =
        { response := some ⟨[(keyHTTPContentType, GoValue.vStr ctPkixCert),
            (keyHTTPRawBody, GoValue.vBytes []),
            (keyHTTPStatusCode, GoValue.vInt 204)]⟩,
          err := none, warned := false }) := by
  constructor
  · intro st h
    rw [replyStep_raw st h]
    refine ⟨_, rfl, rfl, ?_, ?_⟩
    · cases hc : st.certificate with
      | nil => rfl
      | cons a t =>
        rw [if_pos (show (a :: t).length > 0 by simp),
          if_neg (List.cons_ne_nil a t)]
        rfl
    · rfl
  · intro env req m hpath hims hca
    obtain ⟨p, sp, io⟩ := req
    simp only at hpath hims
    subst hpath
    subst hims
    unfold pathFetchRead pathFetchResolve sendNotModifiedResponseIfNecessary
      resolveWithSerial
    simp only [hca]
    rfl

theorem gateBranch_raw (env : Env) (ims : Option Int) (marker : Except Unit Int)
    (serial ct pt : Str) (st : FetchState) (hct : ct ≠ [])
    (hres :
      (if (sendNotModifiedResponseIfNecessary ims marker ⟨[]⟩).2.1.isSome ||
            (sendNotModifiedResponseIfNecessary ims marker ⟨[]⟩).1 then
          ResolveOut.toReply
            { response := some (sendNotModifiedResponseIfNecessary ims marker ⟨[]⟩).2.2,
              retErr := (sendNotModifiedResponseIfNecessary ims marker ⟨[]⟩).2.1 }
        else resolveWithSerial env serial ct pt
          (some (sendNotModifiedResponseIfNecessary ims marker ⟨[]⟩).2.2)) =
        ResolveOut.toReply st)
    (hErr : st.retErr.isSome = true) : st.contentType ≠ [] := by
  rw [gate_no_error] at hres
  simp only [Option.isSome_none, Bool.false_or] at hres
  by_cases hret : (sendNotModifiedResponseIfNecessary ims marker ⟨[]⟩).1 = true
  · rw [if_pos hret] at hres
    injection hres with h2
    rw [← h2] at hErr
    exact absurd hErr (by simp)
  · rw [if_neg hret] at hres
    rw [resolveWithSerial_contentType _ _ _ _ _ _ hres]
    exact hct

/-- C3: an internal error reaching the `reply` assembly on a raw
(content-typed) path is never surfaced as a failed response: the returned
Go error is nil, the warning is logged exactly when an error was pending,
and the response is a non-error body holding whatever bytes were resolved,
possibly empty.  Moreover on each raw path shape — `ca`, `ca/pem`, `crl`,
`crl/pem`, `crl/delta`, `crl/delta/pem`, and the serial `/raw` and
`/raw/pem` forms — every resolution state that reaches `reply` with a
pending error has a non-empty content type, so the containment rule
applies to it. -/
theorem claim_C3_raw_error_swallowed :
    (∀ st : FetchState, st.contentType ≠ [] →
      (replyStep st).err = none ∧ (replyStep st).warned = st.retErr.isSome ∧
      ∃ r, (replyStep st).response = some r ∧ r.isError = false ∧
        dataGet r.data keyHTTPRawBody = some (GoValue.vBytes st.certificate)) ∧
    (∀ (env : Env) (req : Request) (st : FetchState),
      (req.path = "ca".toList ∨ req.path = "ca/pem".toList ∨
        req.path = "crl".toList ∨ req.path = "crl/pem".toList ∨
        req.path = "crl/delta".toList ∨ req.path = "crl/delta/pem".toList ∨
        (isCACase req.path = false ∧ isCAChainCase req.path = false ∧
          isCRLCase req.path = false ∧
          (goHasSuffix req.path ("/pem".toList) = true ∨
            goHasSuffix req.path ("/raw".toList) = true))) →
      pathFetchResolve env req = ResolveOut.toReply st →
      st.retErr.isSome = true → st.contentType ≠ []) := by
  constructor
  · intro st h
    rw [replyStep_raw st h]
    exact ⟨rfl, rfl, _, rfl, rfl, rfl⟩
  · intro env req st hpaths hres hErr
    rcases hpaths with h | h | h | h | h | h | ⟨hA, hB, hC, hsuf⟩
    · simp only [pathFetchResolve, h] at hres
      rw [if_pos (show isCACase ("ca".toList) = true from rfl)] at hres
      exact gateBranch_raw env req.ifModifiedSince env.markerCA _ _ _ st
        (by decide) hres hErr
    · simp only [pathFetchResolve, h] at hres
      rw [if_pos (show isCACase ("ca/pem".toList) = true from rfl)] at hres
      exact gateBranch_raw env req.ifModifiedSince env.markerCA _ _ _ st
        (by decide) hres hErr
    · simp only [pathFetchResolve, h] at hres
      rw [if_neg (show ¬ isCACase ("crl".toList) = true by decide),
        if_neg (show ¬ isCAChainCase ("crl".toList) = true by decide),
        if_pos (show isCRLCase ("crl".toList) = true from rfl)] at hres
      exact gateBranch_raw env req.ifModifiedSince _ _ _ _ st
        (by decide) hres hErr
    · simp only [pathFetchResolve, h] at hres
      rw [if_neg (show ¬ isCACase ("crl/pem".toList) = true by decide),
        if_neg (show ¬ isCAChainCase ("crl/pem".toList) = true by decide),
        if_pos (show isCRLCase ("crl/pem".toList) = true from rfl)] at hres
      exact gateBranch_raw env req.ifModifiedSince _ _ _ _ st
        (by decide) hres hErr
    · simp only [pathFetchResolve, h] at hres
      rw [if_neg (show ¬ isCACase ("crl/delta".toList) = true by decide),
        if_neg (show ¬ isCAChainCase ("crl/delta".toList) = true by decide),
        if_pos (show isCRLCase ("crl/delta".toList) = true from rfl)] at hres
      exact gateBranch_raw env req.ifModifiedSince _ _ _ _ st
        (by decide) hres hErr
    · simp only [pathFetchResolve, h] at hres
      rw [if_neg (show ¬ isCACase ("crl/delta/pem".toList) = true by decide),
        if_neg (show ¬ isCAChainCase ("crl/delta/pem".toList) = true by decide),
        if_pos (show isCRLCase ("crl/delta/pem".toList) = true from rfl)] at hres
      exact gateBranch_raw env req.ifModifiedSince _ _ _ _ st
        (by decide) hres hErr
    · rcases hsuf with hp | hr2
      · rw [dispatch_pem env req hA hB hC hp] at hres
        rw [resolveWithSerial_contentType _ _ _ _ _ _ hres]
        decide
      · by_cases hp : goHasSuffix req.path ("/pem".toList) = true
        · rw [dispatch_pem env req hA hB hC hp] at hres
          rw [resolveWithSerial_contentType _ _ _ _ _ _ hres]
          decide
        · rw [dispatch_raw env req hA hB hC
            (Bool.eq_false_iff.mpr hp) hr2] at hres
          rw [resolveWithSerial_contentType _ _ _ _ _ _ hres]
          decide

/-- C6: fetching a serial for which no certificate entry is stored yields an
empty result on every serial-keyed resource kind — a nil structured
response for `cert/<serial>`, and an empty raw body with status 204 for the
`/raw` and `/raw/pem` forms — and never an error. -/
theorem claim_C6_missing_serial_empty :
    ∀ (env : Env) (req : Request) (s : Str),
      isCACase req.path = false → isCAChainCase req.path = false →
      isCRLCase req.path = false → req.serialParam = s → s ≠ [] →
      s ≠ "ca".toList → s ≠ "ca_chain".toList →
      env.fetchCert s = Except.ok none →
      ((goHasSuffix req.path ("/pem".toList) = false →
        goHasSuffix req.path ("/raw".toList) = false →
        pathFetchRead env req =
          { response := none, err := none, warned := false }) ∧
       (goHasSuffix req.path ("/pem".toList) = true →
        pathFetchRead env req =
          { response := some ⟨[(keyHTTPContentType, GoValue.vStr ctPemChain),
              (keyHTTPRawBody, GoValue.vBytes []),
              (keyHTTPStatusCode, GoValue.vInt 204)]⟩,
            err := none, warned := false }) ∧
       (goHasSuffix req.path ("/pem".toList) = false →
        goHasSuffix req.path ("/raw".toList) = true →
        pathFetchRead env req =
          { response := some ⟨[(keyHTTPContentType, GoValue.vStr ctPkixCert),
              (keyHTTPRawBody, GoValue.vBytes []),
              (keyHTTPStatusCode, GoValue.vInt 204)]⟩,
            err := none, warned := false })) := by
  intro env req s hA hB hC hs hne hca hcc hf
  subst hs
  refine ⟨?_, ?_, ?_⟩
  · intro h4 h5
    unfold pathFetchRead
    rw [dispatch_default env req hA hB hC h4 h5,
      resolveWithSerial_notfound env _ _ _ _ hne hcc hca hf]
    rfl
  · intro h4
    unfold pathFetchRead
    rw [dispatch_pem env req hA hB hC h4,
      resolveWithSerial_notfound env _ _ _ _ hne hcc hca hf]
    rfl
  · intro h4 h5
    unfold pathFetchRead
    rw [dispatch_raw env req hA hB hC h4 h5,
      resolveWithSerial_notfound env _ _ _ _ hne hcc hca hf]
    rfl

/-- C8: on every cert-by-serial path, raw forms included, when a revocation
entry exists for the serial but its JSON fails to decode, the handler
immediately returns the structured error response naming the serial, with a
nil Go error, bypassing the raw-path rule that swallows errors into an
empty raw body. -/
theorem claim_C8_decode_error_bypasses_raw :
    ∀ (env : Env) (req : Request) (s : Str)
      (certEntry revokedEntry : StorageEntry) (m : Str),
      isCACase req.path = false → isCAChainCase req.path = false →
      isCRLCase req.path = false → req.serialParam = s → s ≠ [] →
      s ≠ "ca".toList → s ≠ "ca_chain".toList →
      env.fetchCert s = Except.ok (some certEntry) →
      env.fetchRevoked s = Except.ok (some revokedEntry) →
      env.decodeRevocation revokedEntry.value = Except.error m →
      pathFetchRead env req =
        { response := some (errorResponse
            ("Error decoding revocation entry for serial ".toList ++ s ++
              ": ".toList ++ m)),
          err := none, warned := false } := by
  intro env req s ce re m hA hB hC hs hne hca hcc hf hr hd
  subst hs
  unfold pathFetchRead
  by_cases hp : goHasSuffix req.path ("/pem".toList) = true
  · rw [dispatch_pem env req hA hB hC hp,
      resolveWithSerial_decodeErr env _ _ _ _ ce re m hne hcc hca hf hr hd]
  · by_cases hrw : goHasSuffix req.path ("/raw".toList) = true
    · rw [dispatch_raw env req hA hB hC (Bool.eq_false_iff.mpr hp) hrw,
        resolveWithSerial_decodeErr env _ _ _ _ ce re m hne hcc hca hf hr hd]
    · rw [dispatch_default env req hA hB hC (Bool.eq_false_iff.mpr hp)
          (Bool.eq_false_iff.mpr hrw),
        resolveWithSerial_decodeErr env _ _ _ _ ce re m hne hcc hca hf hr hd]

theorem bytesToStr_strToBytes (s : Str) : bytesToStr (strToBytes s) = s := by
  unfold bytesToStr strToBytes
  rw [List.map_map]
  have h : ∀ c : Char, (Char.ofNat ∘ Char.toNat) c = c := fun c => Char.ofNat_toNat c
  calc List.map (Char.ofNat ∘ Char.toNat) s = List.map id s := List.map_congr_left (fun c _ => h c)
    _ = s := List.map_id s

/-- C2 (amended): a structured `cert/<serial>` read of a stored certificate
always returns the certificate PEM; `revocation_time` is 0 and `issuer_id`
absent when no revocation entry exists, and when one exists and decodes,
`revocation_time` is the decoded epoch and `issuer_id` is present exactly
when the decoded issuer identifier is non-empty (carrying that
identifier). -/
theorem claim_C2_amended :
    (∀ (env : Env) (req : Request) (s : Str) (certEntry : StorageEntry),
      isCACase req.path = false → isCAChainCase req.path = false →
      isCRLCase req.path = false →
      goHasSuffix req.path ("/pem".toList) = false →
      goHasSuffix req.path ("/raw".toList) = false →
      req.serialParam = s → s ≠ [] → s ≠ "ca".toList → s ≠ "ca_chain".toList →
      env.fetchCert s = Except.ok (some certEntry) →
      env.fetchRevoked s = Except.ok none →
      ∃ r, pathFetchRead env req =
          { response := some r, err := none, warned := false } ∧
        dataGet r.data keyCertificate =
          some (GoValue.vStr
            (trimSpace (pemEncodeToMemory certTypeStr certEntry.value))) ∧
        dataGet r.data keyRevocationTime = some (GoValue.vInt 0) ∧
        dataGet r.data keyIssuerId = none) ∧
    (∀ (env : Env) (req : Request) (s : Str)
      (certEntry revokedEntry : StorageEntry) (ri : RevocationInfo),
      isCACase req.path = false → isCAChainCase req.path = false →
      isCRLCase req.path = false →
      goHasSuffix req.path ("/pem".toList) = false →
      goHasSuffix req.path ("/raw".toList) = false →
      req.serialParam = s → s ≠ [] → s ≠ "ca".toList → s ≠ "ca_chain".toList →
      env.fetchCert s = Except.ok (some certEntry) →
      env.fetchRevoked s = Except.ok (some revokedEntry) →
      env.decodeRevocation revokedEntry.value = Except.ok ri →
      ∃ r, pathFetchRead env req =
          { response := some r, err := none, warned := false } ∧
        dataGet r.data keyCertificate =
          some (GoValue.vStr
            (trimSpace (pemEncodeToMemory certTypeStr certEntry.value))) ∧
        dataGet r.data keyRevocationTime =
          some (GoValue.vInt ri.revocationTime) ∧
        dataGet r.data keyIssuerId =
          (if ri.certificateIssuer = [] then none
           else some (GoValue.vStr ri.certificateIssuer))) := by
  constructor
  · intro env req s ce hA hB hC h4 h5 hs hne hca hcc hf hr
    subst hs
    have hres : pathFetchRead env req =
        { response := some ⟨[(keyCertificate, GoValue.vStr
            (bytesToStr (strToBytes
              (trimSpace (pemEncodeToMemory certTypeStr ce.value))))),
            (keyRevocationTime, GoValue.vInt 0),
            (keyRevocationTimeRfc3339, GoValue.vStr [])]⟩,
          err := none, warned := false } := by
      unfold pathFetchRead
      rw [dispatch_default env req hA hB hC h4 h5,
        resolveWithSerial_found_notRevoked env _ _ _ _ ce hne hcc hca hf hr]
      rfl
    rw [bytesToStr_strToBytes] at hres
    exact ⟨_, hres, rfl, rfl, rfl⟩
  · intro env req s ce re ri hA hB hC h4 h5 hs hne hca hcc hf hr hd
    subst hs
    by_cases hiss : ri.certificateIssuer = []
    · have hres : pathFetchRead env req =
          { response := some ⟨[(keyCertificate, GoValue.vStr
              (bytesToStr (strToBytes
                (trimSpace (pemEncodeToMemory certTypeStr ce.value))))),
              (keyRevocationTime, GoValue.vInt ri.revocationTime),
              (keyRevocationTimeRfc3339, GoValue.vStr
                (match ri.revocationTimeUTC with
                 | some u => u
                 | none => []))]⟩,
            err := none, warned := false } := by
        unfold pathFetchRead
        rw [dispatch_default env req hA hB hC h4 h5,
          resolveWithSerial_found_revoked env _ _ _ _ ce re ri hne hcc hca hf
            hr hd, hiss]
        rfl
      rw [bytesToStr_strToBytes] at hres
      refine ⟨_, hres, rfl, rfl, ?_⟩
      rw [if_pos hiss]
      rfl
    · obtain ⟨c0, t0, hct⟩ : ∃ c0 t0, ri.certificateIssuer = c0 :: t0 := by
        cases h : ri.certificateIssuer with
        | nil => exact absurd h hiss
        | cons c0 t0 => exact ⟨c0, t0, rfl⟩
      have hres : pathFetchRead env req =
          { response := some ⟨[(keyCertificate, GoValue.vStr
              (bytesToStr (strToBytes
                (trimSpace (pemEncodeToMemory certTypeStr ce.value))))),
              (keyRevocationTime, GoValue.vInt ri.revocationTime),
              (keyRevocationTimeRfc3339, GoValue.vStr
                (match ri.revocationTimeUTC with
                 | some u => u
                 | none => [])),
              (keyIssuerId, GoValue.vStr (c0 :: t0))]⟩,
            err := none, warned := false } := by
        unfold pathFetchRead
        rw [dispatch_default env req hA hB hC h4 h5,
          resolveWithSerial_found_revoked env _ _ _ _ ce re ri hne hcc hca hf
            hr hd, hct]
        rfl
      rw [bytesToStr_strToBytes] at hres
      refine ⟨_, hres, rfl, rfl, ?_⟩
      rw [if_neg hiss, hct]
      rfl

theorem replyStep_ca_chain (S : Str) (hS : S ≠ []) :
    replyStep
      { response := some (LResponse.mk []), retErr := none,
        contentType :=
          (if ("cert/ca_chain".toList == "ca_chain".toList) = true then
            ctPkixCert else []),
        pemType := [], certificate := strToBytes S, fullChain := strToBytes S,
        revocationTime := 0, revocationTimeRfc3339 := [],
        revocationIssuerId := [] } =
    { response := some (LResponse.mk
        [(keyCertificate, GoValue.vStr (bytesToStr (strToBytes S))),
         (keyRevocationTime, GoValue.vInt 0),
         (keyRevocationTimeRfc3339, GoValue.vStr []),
         (keyCAChain, GoValue.vStr (bytesToStr (strToBytes S)))]),
      err := none, warned := false } := by
  have hlen : (strToBytes S).length > 0 := by
    cases S with
    | nil => exact absurd rfl hS
    | cons a s => simp [strToBytes]
  unfold replyStep
  rw [if_neg (show ¬ ((if ("cert/ca_chain".toList == "ca_chain".toList) = true
    then ctPkixCert else []) ≠ ([] : Str)) by decide)]
  rw [if_neg (show ¬ ((none : Option GoErr).isSome = true) by decide)]
  dsimp only
  rw [if_neg (show ¬ ((LResponse.mk []).isError = true) by decide)]
  rw [if_neg (show ¬ (([] : Str) ≠ []) by decide)]
  rw [if_pos hlen]
  rfl

/-- C10: a structured `cert/ca_chain` read returns a response carrying both
a `certificate` field and a `ca_chain` field, and the two hold the identical
concatenated PEM chain text. -/
theorem claim_C10_chain_fields :
    ∀ (env : Env) (req : Request) (info : CAInfo),
      req.path = "cert/ca_chain".toList → env.caInfo = Except.ok info →
      ∃ r, pathFetchRead env req =
          { response := some r, err := none, warned := false } ∧
        dataGet r.data keyCertificate =
          some (GoValue.vStr (buildChainStr info.getFullChain)) ∧
        dataGet r.data keyCAChain =
          some (GoValue.vStr (buildChainStr info.getFullChain)) := by
  intro env req info hpath hca
  have hS := buildChainStr_ne_nil info.certificateRaw info.chain
  obtain ⟨c, t, hct⟩ : ∃ c t, buildChainStr info.getFullChain = c :: t := by
    cases h : buildChainStr info.getFullChain with
    | nil => exact absurd h hS
    | cons c t => exact ⟨c, t, rfl⟩
  rw [hct]
  have hres : pathFetchRead env req =
      { response := some ⟨[(keyCertificate,
          GoValue.vStr (bytesToStr (strToBytes (c :: t)))),
          (keyRevocationTime, GoValue.vInt 0),
          (keyRevocationTimeRfc3339, GoValue.vStr []),
          (keyCAChain, GoValue.vStr (bytesToStr (strToBytes (c :: t))))]⟩,
        err := none, warned := false } := by
    simp only [pathFetchRead, pathFetchResolve, hpath]
    rw [if_neg (show ¬ isCACase ("cert/ca_chain".toList) = true by decide),
      if_pos (show isCAChainCase ("cert/ca_chain".toList) = true from rfl)]
    unfold resolveWithSerial
    rw [if_neg (show ¬ ("ca_chain".toList : Str) = [] by decide)]
    rw [if_pos (show ("ca_chain".toList : Str) = "ca_chain".toList ∨
      ("ca_chain".toList : Str) = "ca".toList from Or.inl rfl)]
    simp only [hca]
    rw [if_pos (trivial : True)]
    rw [hct]
    exact replyStep_ca_chain (c :: t) (List.cons_ne_nil c t)
  rw [bytesToStr_strToBytes] at hres
  exact ⟨_, hres, rfl, rfl⟩

theorem isCRLCase_not_CA {p : Str} (h : isCRLCase p = true) :
    isCACase p = false ∧ isCAChainCase p = false := by
  simp only [isCRLCase, Bool.or_eq_true, beq_iff_eq] at h
  rcases h with ((((((((h | h) | h) | h) | h) | h) | h) | h) | h) | h <;>
    subst h <;> exact ⟨rfl, rfl⟩

/-- C1: a CA, CRL or delta-CRL read carrying an `If-Modified-Since`
precondition whose class marker cannot be read (storage error) is not
rejected: the gate fails open and the request resolves exactly as if no
precondition had been supplied. -/
theorem claim_C1_gate_fails_open :
    ∀ (env : Env) (req : Request) (t : Int),
      req.ifModifiedSince = some t →
      ((isCACase req.path = true ∧ env.markerCA = Except.error ()) ∨
       (isCRLCase req.path = true ∧
         (if goContains req.path ("delta".toList) then env.markerDeltaCRL
          else env.markerCRL) = Except.error ())) →
      pathFetchRead env req =
        pathFetchRead env
          { path := req.path, serialParam := req.serialParam,
            ifModifiedSince := none } := by
  intro env req t ht hcase
  rcases hcase with ⟨hpath, hmk⟩ | ⟨hpath, hmk⟩
  · unfold pathFetchRead
    simp only [pathFetchResolve, ht, hpath, reduceIte]
    rw [hmk]
    rfl
  · have hAB := isCRLCase_not_CA hpath
    unfold pathFetchRead
    simp only [pathFetchResolve, ht, hAB.1, hAB.2, hpath, reduceIte]
    rw [hmk]
    rfl

theorem processEntries_fail_parse (env : Env) :
    ∀ (pre : List Str) (e : Str) (rest : List Str) (entry : StorageEntry)
      (msg : Str) (keys : List Str) (info : List (Str × CertInfo)),
      (∀ x ∈ pre, entryParses env x = true) →
      env.storageGet ("certs/".toList ++ e) = Except.ok (some entry) →
      env.parseCertificate entry.value = Except.error msg →
      processEntries env (pre ++ e :: rest) keys info =
        (some (errorResponse
          ("failed to parse certificate for ".toList ++
            env.denormalizeSerial e ++ ": ".toList ++ msg)), none) := by
  intro pre
  induction pre with
  | nil =>
    intro e rest entry msg keys info hpre hget hparse
    simp only [List.nil_append, processEntries, hget, hparse]
  | cons x pre ih =>
    intro e rest entry msg keys info hpre hget hparse
    have hx := hpre x (List.mem_cons_self _ _)
    unfold entryParses at hx
    cases hgx : env.storageGet ("certs/".toList ++ x) with
    | error err =>
      simp only [hgx] at hx
      exact absurd hx (by decide)
    | ok o =>
      cases o with
      | none =>
        simp only [hgx] at hx
        exact absurd hx (by decide)
      | some en =>
        simp only [hgx] at hx
        cases hpx : env.parseCertificate en.value with
        | error m2 =>
          simp only [hpx] at hx
          exact absurd hx (by decide)
        | ok cd =>
          simp only [List.cons_append, processEntries, hgx, hpx]
          exact ih e rest entry msg _ _
            (fun y hy => hpre y (List.mem_cons_of_mem _ hy)) hget hparse

theorem processEntries_fail_missing (env : Env) :
    ∀ (pre : List Str) (e : Str) (rest : List Str)
      (keys : List Str) (info : List (Str × CertInfo)),
      (∀ x ∈ pre, entryParses env x = true) →
      env.storageGet ("certs/".toList ++ e) = Except.ok none →
      processEntries env (pre ++ e :: rest) keys info =
        (some (errorResponse
          ("failed to retrieve entry for ".toList ++ e)), none) := by
  intro pre
  induction pre with
  | nil =>
    intro e rest keys info hpre hget
    simp only [List.nil_append, processEntries, hget]
  | cons x pre ih =>
    intro e rest keys info hpre hget
    have hx := hpre x (List.mem_cons_self _ _)
    unfold entryParses at hx
    cases hgx : env.storageGet ("certs/".toList ++ x) with
    | error err =>
      simp only [hgx] at hx
      exact absurd hx (by decide)
    | ok o =>
      cases o with
      | none =>
        simp only [hgx] at hx
        exact absurd hx (by decide)
      | some en =>
        simp only [hgx] at hx
        cases hpx : env.parseCertificate en.value with
        | error m2 =>
          simp only [hpx] at hx
          exact absurd hx (by decide)
        | ok cd =>
          simp only [List.cons_append, processEntries, hgx, hpx]
          exact ih e rest _ _
            (fun y hy => hpre y (List.mem_cons_of_mem _ hy)) hget

/-- C7: in a detailed certificate listing, an X.509 parse failure on any
single entry aborts the whole operation with an error response naming the
offending (display-form) serial; the response is a bare error envelope, so
no partial `keys` and no per-serial `key_info` are returned. -/
theorem claim_C7_parse_failure_aborts :
    ∀ (env : Env) (after : Str) (limit : Int) (pre : List Str) (e : Str)
      (rest : List Str) (entry : StorageEntry) (msg : Str),
      (if env.txnAvailable then env.beginTx else Except.ok ()) = Except.ok () →
      env.listPage ("certs/".toList) after (if limit ≤ 0 then -1 else limit) =
        Except.ok (pre ++ e :: rest) →
      (∀ x ∈ pre, entryParses env x = true) →
      env.storageGet ("certs/".toList ++ e) = Except.ok (some entry) →
      env.parseCertificate entry.value = Except.error msg →
      pathFetchCertListDetailed env after limit =
        (some (errorResponse ("failed to parse certificate for ".toList ++
          env.denormalizeSerial e ++ ": ".toList ++ msg)), none) ∧
      dataGet (errorResponse ("failed to parse certificate for ".toList ++
        env.denormalizeSerial e ++ ": ".toList ++ msg)).data keyKeys = none ∧
      dataGet (errorResponse ("failed to parse certificate for ".toList ++
        env.denormalizeSerial e ++ ": ".toList ++ msg)).data keyKeyInfo =
        none := by
  intro env after limit pre e rest entry msg htxn hlist hpre hget hparse
  refine ⟨?_, rfl, rfl⟩
  unfold pathFetchCertListDetailed
  simp only [htxn, hlist]
  exact processEntries_fail_parse env pre e rest entry msg [] [] hpre hget
    hparse

/-- C9: in a detailed certificate listing, a serial returned by the page
listing whose certificate entry is gone when re-read aborts the whole
operation with the error response `failed to retrieve entry for <serial>`;
the response is a bare error envelope, so no partial `keys` and no
per-serial `key_info` are returned. -/
theorem claim_C9_missing_entry_aborts :
    ∀ (env : Env) (after : Str) (limit : Int) (pre : List Str) (e : Str)
      (rest : List Str),
      (if env.txnAvailable then env.beginTx else Except.ok ()) = Except.ok () →
      env.listPage ("certs/".toList) after (if limit ≤ 0 then -1 else limit) =
        Except.ok (pre ++ e :: rest) →
      (∀ x ∈ pre, entryParses env x = true) →
      env.storageGet ("certs/".toList ++ e) = Except.ok none →
      pathFetchCertListDetailed env after limit =
        (some (errorResponse
          ("failed to retrieve entry for ".toList ++ e)), none) ∧
      dataGet (errorResponse
        ("failed to retrieve entry for ".toList ++ e)).data keyKeys = none ∧
      dataGet (errorResponse
        ("failed to retrieve entry for ".toList ++ e)).data keyKeyInfo =
        none := by
  intro env after limit pre e rest htxn hlist hpre hget
  refine ⟨?_, rfl, rfl⟩
  unfold pathFetchCertListDetailed
  simp only [htxn, hlist]
  exact processEntries_fail_missing env pre e rest [] [] hpre hget

/-- C2 counterexample: with a stored certificate for serial `0a` and a
revocation entry present whose decoded record is a legacy one (zero epoch,
empty issuer identifier), the structured read succeeds but its response has
`revocation_time` 0 and no `issuer_id` key — refuting "non-zero
revocation_time and a present, non-empty issuer_id exactly when a
RevocationEntry exists". -/
theorem claim_C2_counterexample :
    envW4.fetchRevoked ("0a".toList) = Except.ok (some ⟨[5]⟩) ∧
    (pathFetchRead envW4 reqCert0a).err = none ∧
    ((pathFetchRead envW4 reqCert0a).response.map
      (fun r => (dataGet r.data keyRevocationTime, dataGet r.data keyIssuerId))) =
      some (some (GoValue.vInt 0), none) :=
  ⟨rfl, rfl, rfl⟩

theorem claim_C1_witness :
    envW.markerCA = Except.error () ∧
    pathFetchRead envW
        { path := "ca".toList, serialParam := [], ifModifiedSince := some 5 } =
      pathFetchRead envW
        { path := "ca".toList, serialParam := [], ifModifiedSince := none } :=
  ⟨rfl, claim_C1_gate_fails_open envW ⟨"ca".toList, [], some 5⟩ 5 rfl
    (Or.inl ⟨rfl, rfl⟩)⟩

theorem claim_C2_witness :
    envW2.fetchRevoked ("0b".toList) = Except.ok none ∧
    (∃ r, pathFetchRead envW2
          { path := "cert/0b".toList, serialParam := "0b".toList,
            ifModifiedSince := none } =
        { response := some r, err := none, warned := false } ∧
      dataGet r.data keyCertificate = some (GoValue.vStr
        (trimSpace (pemEncodeToMemory certTypeStr [3, 4]))) ∧
      dataGet r.data keyRevocationTime = some (GoValue.vInt 0) ∧
      dataGet r.data keyIssuerId = none) ∧
    (∃ r, pathFetchRead envW2 reqCert0a =
        { response := some r, err := none, warned := false } ∧
      dataGet r.data keyCertificate = some (GoValue.vStr
        (trimSpace (pemEncodeToMemory certTypeStr [3, 4]))) ∧
      dataGet r.data keyRevocationTime = some (GoValue.vInt 1234) ∧
      dataGet r.data keyIssuerId =
        (if ("issuer1".toList : Str) = [] then none
         else some (GoValue.vStr ("issuer1".toList)))) :=
  ⟨rfl,
   claim_C2_amended.1 envW2
     ⟨"cert/0b".toList, "0b".toList, none⟩ ("0b".toList) ⟨[3, 4]⟩
     rfl rfl rfl rfl rfl rfl (by decide) (by decide) (by decide) rfl rfl,
   claim_C2_amended.2 envW2 reqCert0a ("0a".toList) ⟨[3, 4]⟩ ⟨[5]⟩
     ⟨1234, some ("2024-01-01T00:00:00Z".toList), "issuer1".toList⟩
     rfl rfl rfl rfl rfl rfl (by decide) (by decide) (by decide) rfl rfl rfl⟩

theorem claim_C3_witness :
    (stRawW.contentType ≠ [] ∧
      (replyStep stRawW).err = none ∧
      (replyStep stRawW).warned = stRawW.retErr.isSome ∧
      ∃ r, (replyStep stRawW).response = some r ∧ r.isError = false ∧
        dataGet r.data keyHTTPRawBody =
          some (GoValue.vBytes stRawW.certificate)) ∧
    ({ response := some ⟨[]⟩,
       retErr := some (GoErr.internal ("disk".toList)),
       contentType := ctPkixCert, pemType := [] } : FetchState).contentType ≠
      [] :=
  ⟨⟨by decide, claim_C3_raw_error_swallowed.1 stRawW (by decide)⟩,
   claim_C3_raw_error_swallowed.2 envW5
     ⟨"cert/0a/raw".toList, "0a".toList, none⟩
     { response := some ⟨[]⟩,
       retErr := some (GoErr.internal ("disk".toList)),
       contentType := ctPkixCert, pemType := [] }
     (Or.inr (Or.inr (Or.inr (Or.inr (Or.inr (Or.inr
       ⟨rfl, rfl, rfl, Or.inr rfl⟩)))))) rfl rfl⟩

theorem claim_C5_witness :
    (stRawW.contentType ≠ [] ∧
      ∃ r, (replyStep stRawW).response = some r ∧
        (replyStep stRawW).err = none ∧
        dataGet r.data keyHTTPStatusCode =
          some (GoValue.vInt (if stRawW.certificate = [] then 204 else 200)) ∧
        dataGet r.data keyHTTPRawBody =
          some (GoValue.vBytes stRawW.certificate)) ∧
    pathFetchRead envW ⟨"ca".toList, [], none⟩ =
      { response := some ⟨[(keyHTTPContentType, GoValue.vStr ctPkixCert),
          (keyHTTPRawBody, GoValue.vBytes []),
          (keyHTTPStatusCode, GoValue.vInt 204)]⟩,
        err := none, warned := false } :=
  ⟨⟨by decide, claim_C5_raw_status.1 stRawW (by decide)⟩,
   claim_C5_raw_status.2 envW ⟨"ca".toList, [], none⟩
     ("no CA configured".toList) rfl rfl rfl⟩

theorem claim_C6_witness :
    envW.fetchCert ("0a".toList) = Except.ok none ∧
    pathFetchRead envW reqCert0a =
      { response := none, err := none, warned := false } ∧
    pathFetchRead envW
        { path := "cert/0a/raw/pem".toList, serialParam := "0a".toList,
          ifModifiedSince := none } =
      { response := some ⟨[(keyHTTPContentType, GoValue.vStr ctPemChain),
          (keyHTTPRawBody, GoValue.vBytes []),
          (keyHTTPStatusCode, GoValue.vInt 204)]⟩,
        err := none, warned := false } ∧
    pathFetchRead envW
        { path := "cert/0a/raw".toList, serialParam := "0a".toList,
          ifModifiedSince := none } =
      { response := some ⟨[(keyHTTPContentType, GoValue.vStr ctPkixCert),
          (keyHTTPRawBody, GoValue.vBytes []),
          (keyHTTPStatusCode, GoValue.vInt 204)]⟩,
        err := none, warned := false } :=
  ⟨rfl,
   (claim_C6_missing_serial_empty envW reqCert0a ("0a".toList)
     rfl rfl rfl rfl (by decide) (by decide) (by decide) rfl).1 rfl rfl,
   (claim_C6_missing_serial_empty envW
     ⟨"cert/0a/raw/pem".toList, "0a".toList, none⟩ ("0a".toList)
     rfl rfl rfl rfl (by decide) (by decide) (by decide) rfl).2.1 rfl,
   (claim_C6_missing_serial_empty envW
     ⟨"cert/0a/raw".toList, "0a".toList, none⟩ ("0a".toList)
     rfl rfl rfl rfl (by decide) (by decide) (by decide) rfl).2.2 rfl rfl⟩

theorem claim_C7_witness :
    envW2.parseCertificate [9] = Except.error ("boom".toList) ∧
    pathFetchCertListDetailed envW2 [] 0 =
      (some (errorResponse ("failed to parse certificate for ".toList ++
        envW2.denormalizeSerial ("0a".toList) ++ ": ".toList ++
        "boom".toList)), none) :=
  ⟨rfl,
   (claim_C7_parse_failure_aborts envW2 [] 0 [] ("0a".toList) [] ⟨[9]⟩
     ("boom".toList) rfl rfl
     (fun x hx => absurd hx (List.not_mem_nil x)) rfl rfl).1⟩

theorem claim_C8_witness :
    envW3.decodeRevocation [5] = Except.error ("corrupt".toList) ∧
    pathFetchRead envW3
        { path := "cert/0a/raw".toList, serialParam := "0a".toList,
          ifModifiedSince := none } =
      { response := some (errorResponse
          ("Error decoding revocation entry for serial ".toList ++
            "0a".toList ++ ": ".toList ++ "corrupt".toList)),
        err := none, warned := false } :=
  ⟨rfl,
   claim_C8_decode_error_bypasses_raw envW3
     ⟨"cert/0a/raw".toList, "0a".toList, none⟩ ("0a".toList) ⟨[3, 4]⟩ ⟨[5]⟩
     ("corrupt".toList) rfl rfl rfl rfl (by decide) (by decide) (by decide)
     rfl rfl rfl⟩

theorem claim_C9_witness :
    envW.storageGet ("certs/".toList ++ "0a".toList) = Except.ok none ∧
    pathFetchCertListDetailed envW [] 0 =
      (some (errorResponse
        ("failed to retrieve entry for ".toList ++ "0a".toList)), none) :=
  ⟨rfl,
   (claim_C9_missing_entry_aborts envW [] 0 [] ("0a".toList) [] rfl rfl
     (fun x hx => absurd hx (List.not_mem_nil x)) rfl).1⟩

theorem claim_C10_witness :
    envW2.caInfo = Except.ok ⟨[1, 2], [[3]]⟩ ∧
    ∃ r, pathFetchRead envW2 ⟨"cert/ca_chain".toList, [], none⟩ =
        { response := some r, err := none, warned := false } ∧
      dataGet r.data keyCertificate = some (GoValue.vStr
        (buildChainStr (CAInfo.getFullChain ⟨[1, 2], [[3]]⟩))) ∧
      dataGet r.data keyCAChain = some (GoValue.vStr
        (buildChainStr (CAInfo.getFullChain ⟨[1, 2], [[3]]⟩))) :=
  ⟨rfl, claim_C10_chain_fields envW2 ⟨"cert/ca_chain".toList, [], none⟩
    ⟨[1, 2], [[3]]⟩ rfl rfl⟩

end PkiFetch
